import Mathlib

/-!
Verification development for the `mongodb-base-service` repository.

The Rust sources under `src/` are shallowly embedded here:

* `src/id.rs` — the `ID` enum, its wire serialization (`From<ID> for String`),
  `ID::from_string` and the partial constructor `ID::with_bson`.
* `src/error.rs` — the `ServiceError` taxonomy.
* `src/base.rs` — the `BaseService` trait operations (`find`, `insert_one`,
  `insert_many`, `insert_embedded`, `upsert_embedded`, `update_one`,
  `update_embedded`, `delete_one_by_id`, `delete_embedded`, `find_one`).

The MongoDB driver is an external collaborator of the repository; it is
modelled here at the interface the service uses (the StorageAccessor contract
of the specification): an in-memory collection of BSON documents with
`find_one` / `update_one` / `delete_one` / `insert_one` / `insert_many`
primitives, including `$set` (with the positional `$` operator), `$push`
(with `$each`) and `$pull` update interpretation.  Machine integers are
modelled as `Int` (no arithmetic anywhere near overflow occurs in the
embedded code), fallible calls return `Except`, and Rust panics are made
explicit through a dedicated result constructor.
-/

/-- A 12-byte BSON ObjectId, as in the `bson` crate used by `src/id.rs`.
The bytes are modelled as a list of `Nat`; genuine ObjectIds have twelve
bytes each below 256, which theorems take as hypotheses where needed. -/
structure ObjectId where
  bytes : List Nat
deriving DecidableEq, BEq

/-- Lower-case hex digit for a value below 16, as produced by hex encoding
of ObjectId bytes (`ObjectId::to_hex`). -/
def hexDig (n : Nat) : Char :=
  if n < 10 then Char.ofNat (48 + n) else Char.ofNat (87 + n)

/-- Two-character lower-case hex rendering of one byte. -/
def byteToHex (b : Nat) : List Char :=
  [hexDig (b / 16), hexDig (b % 16)]

/-- Value of a hex digit character; accepts both cases, as `hex::decode`
does in the Rust implementation backing `ObjectId::with_string`. -/
def hexVal (c : Char) : Option Nat :=
  if 48 ≤ c.toNat ∧ c.toNat ≤ 57 then some (c.toNat - 48)
  else if 97 ≤ c.toNat ∧ c.toNat ≤ 102 then some (c.toNat - 87)
  else if 65 ≤ c.toNat ∧ c.toNat ≤ 70 then some (c.toNat - 55)
  else none

/-- Hex decoding of a character list into bytes; fails on odd length or a
non-hex character, as `hex::decode` does. -/
def hexDecodeChars : List Char → Option (List Nat)
  | [] => some []
  | c1 :: c2 :: rest =>
    match hexVal c1, hexVal c2, hexDecodeChars rest with
    | some h, some l, some tail => some ((16 * h + l) :: tail)
    | _, _, _ => none
  | [_] => none

/-- Hex characters of an ObjectId (`ObjectId::to_hex`). -/
def ObjectId.toHexChars (o : ObjectId) : List Char :=
  o.bytes.foldr (fun b acc => byteToHex b ++ acc) []

/-- `ObjectId::to_hex` from the `bson` crate: lower-case hex string. -/
def ObjectId.toHex (o : ObjectId) : String :=
  String.mk o.toHexChars

/-- `ObjectId::with_string` from the `bson` crate: hex-decode and require
exactly twelve bytes. -/
def ObjectId.withString (s : String) : Option ObjectId :=
  match hexDecodeChars s.data with
  | some bytes => if bytes.length = 12 then some ⟨bytes⟩ else none
  | none => none

/-- The `ID` enum of `src/id.rs`: native ObjectId, plain string, or i64. -/
inductive ID where
  | objectId (o : ObjectId)
  | string (s : String)
  | i64 (i : Int)
deriving DecidableEq

/-- `From<ID> for String` in `src/id.rs` (lines 103-111): the wire string
form.  An `ObjectId` serializes with the reserved `$oid:` marker, a plain
string as itself, an integer as its decimal rendering (`i.to_string()`,
modelled by `Int.repr`). -/
def ID.toWire : ID → String
  | .objectId o => "$oid:" ++ o.toHex
  | .string s => s
  | .i64 i => Int.repr i

/-- `ID::from_string` in `src/id.rs` (lines 126-136).  The Rust code tests
`s.starts_with("$oid:")` and slices `&s[5..]`; both operate on bytes, which
for the five-byte ASCII marker coincides with the character-level prefix
test and drop used here. -/
def ID.from_string (s : String) : ID :=
  if "$oid:".data.isPrefixOf s.data then
    match ObjectId.withString (String.mk (s.data.drop 5)) with
    | some oid => ID.objectId oid
    | none => ID.string s
  else ID.string s

/- Hex codec round-trip lemmas. -/

theorem hexVal_hexDig : ∀ n, n < 16 → hexVal (hexDig n) = some n := by decide

theorem hexDecodeChars_encode :
    ∀ bs : List Nat, (∀ x ∈ bs, x < 256) →
      hexDecodeChars (bs.foldr (fun b acc => byteToHex b ++ acc) []) = some bs := by
  intro bs
  induction bs with
  | nil => intro _; rfl
  | cons x t ih =>
    intro h
    have hx : x < 256 := h x (by simp)
    have hdiv : x / 16 < 16 := by omega
    have hmod : x % 16 < 16 := by omega
    have ht : ∀ y ∈ t, y < 256 := fun y hy => h y (by simp [hy])
    show hexDecodeChars
        (hexDig (x / 16) :: hexDig (x % 16) ::
          t.foldr (fun b acc => byteToHex b ++ acc) []) = some (x :: t)
    rw [hexDecodeChars, hexVal_hexDig _ hdiv, hexVal_hexDig _ hmod, ih ht]
    have : 16 * (x / 16) + x % 16 = x := by omega
    simp [this]

theorem ObjectId.withString_toHex (o : ObjectId)
    (h12 : o.bytes.length = 12) (hb : ∀ x ∈ o.bytes, x < 256) :
    ObjectId.withString o.toHex = some o := by
  show ObjectId.withString (String.mk o.toHexChars) = some o
  unfold ObjectId.withString
  show (match hexDecodeChars o.toHexChars with
        | some bytes => if bytes.length = 12 then some ⟨bytes⟩ else none
        | none => none) = some o
  rw [show o.toHexChars = o.bytes.foldr (fun b acc => byteToHex b ++ acc) [] from rfl,
    hexDecodeChars_encode o.bytes hb]
  simp [h12]

/- String-level helper lemmas. -/

theorem string_data_append (a b : String) : (a ++ b).data = a.data ++ b.data := by
  cases a; cases b; rfl

theorem string_mk_data (s : String) : String.mk s.data = s := by
  cases s; rfl

theorem isPrefixOf_append_self :
    ∀ p rest : List Char, p.isPrefixOf (p ++ rest) = true := by
  intro p
  induction p with
  | nil => intro rest; simp [List.isPrefixOf]
  | cons c t ih => intro rest; simp [List.isPrefixOf, ih]

theorem not_isPrefixOf_of_head_ne (cs : List Char)
    (h : ∀ c ∈ cs, c ≠ '$') : "$oid:".data.isPrefixOf cs = false := by
  cases cs with
  | nil => rfl
  | cons c t =>
    have hc : c ≠ '$' := h c (by simp)
    show ('$' == c && List.isPrefixOf ['o', 'i', 'd', ':'] t) = false
    have : ('$' == c) = false := by
      simp [hc.symm]
    simp [this]

theorem toDigitsCore_ne_dollar :
    ∀ (fuel n : Nat) (ds : List Char), (∀ c ∈ ds, c ≠ '$') →
      ∀ c ∈ Nat.toDigitsCore 10 fuel n ds, c ≠ '$' := by
  intro fuel
  induction fuel with
  | zero => intro n ds h; simpa [Nat.toDigitsCore] using h
  | succ f ih =>
    intro n ds h
    have hd : ∀ m, m < 10 → Nat.digitChar m ≠ '$' := by decide
    have hcons : ∀ c ∈ Nat.digitChar (n % 10) :: ds, c ≠ '$' := by
      intro c hc
      rcases List.mem_cons.mp hc with h1 | h2
      · exact h1 ▸ hd (n % 10) (Nat.mod_lt _ (by omega))
      · exact h c h2
    show ∀ c ∈ Nat.toDigitsCore 10 (f + 1) n ds, c ≠ '$'
    rw [Nat.toDigitsCore]
    split
    · exact hcons
    · exact ih (n / 10) _ hcons

theorem natRepr_ne_dollar (n : Nat) : ∀ c ∈ (Nat.repr n).data, c ≠ '$' := by
  show ∀ c ∈ Nat.toDigits 10 n, c ≠ '$'
  exact toDigitsCore_ne_dollar (n + 1) n [] (by simp)

theorem intRepr_ne_dollar (i : Int) : ∀ c ∈ (Int.repr i).data, c ≠ '$' := by
  cases i with
  | ofNat n => exact natRepr_ne_dollar n
  | negSucc n =>
    show ∀ c ∈ ("-" ++ Nat.repr (n + 1)).data, c ≠ '$'
    rw [string_data_append]
    intro c hc
    rcases List.mem_append.mp hc with h1 | h2
    · simp at h1; simp [h1]
    · exact natRepr_ne_dollar (n + 1) c h2

/-- Claim C1 (counterexample): the round trip does not preserve the integer
variant.  `ID::I64(5)` serializes to the wire string `5`, and
`ID::from_string("5")` yields `ID::String("5")`, not `ID::I64(5)`. -/
theorem claim_C1_counterexample :
    ID.from_string (ID.toWire (ID.i64 5)) = ID.string "5" ∧
    ID.from_string (ID.toWire (ID.i64 5)) ≠ ID.i64 5 := by
  constructor <;> decide

/-- Claim C1 (amended): converting an ID to its wire string and parsing it
back behaves as follows.  A native ObjectId-variant ID round-trips exactly.
A plain-string ID round-trips unless the string itself starts with the
`$oid:` marker followed by a parseable 24-hex-digit ObjectId, in which case
it comes back as the ObjectId variant.  An integer-variant ID comes back as
the plain-string variant holding its decimal rendering. -/
theorem claim_C1_amended :
    (∀ o : ObjectId, o.bytes.length = 12 → (∀ x ∈ o.bytes, x < 256) →
        ID.from_string (ID.toWire (ID.objectId o)) = ID.objectId o)
    ∧ (∀ s : String, "$oid:".data.isPrefixOf s.data = false →
        ID.from_string (ID.toWire (ID.string s)) = ID.string s)
    ∧ (∀ s : String, "$oid:".data.isPrefixOf s.data = true →
        ObjectId.withString (String.mk (s.data.drop 5)) = none →
        ID.from_string (ID.toWire (ID.string s)) = ID.string s)
    ∧ (∀ s : String, ∀ o : ObjectId, "$oid:".data.isPrefixOf s.data = true →
        ObjectId.withString (String.mk (s.data.drop 5)) = some o →
        ID.from_string (ID.toWire (ID.string s)) = ID.objectId o)
    ∧ (∀ i : Int, ID.from_string (ID.toWire (ID.i64 i)) = ID.string (Int.repr i)) := by
  refine ⟨?_, ?_, ?_, ?_, ?_⟩
  · intro o h12 hb
    have h1 : (ID.toWire (ID.objectId o)).data = "$oid:".data ++ o.toHexChars := by
      show ("$oid:" ++ o.toHex).data = _
      rw [string_data_append]; rfl
    have hdrop : ("$oid:".data ++ o.toHexChars).drop 5 = o.toHexChars := by
      simp
    have hmk : String.mk o.toHexChars = o.toHex := rfl
    simp only [ID.from_string, h1, isPrefixOf_append_self, hdrop, hmk,
      ObjectId.withString_toHex o h12 hb, if_true]
  · intro s h
    simp only [ID.toWire, ID.from_string, h, Bool.false_eq_true, if_false]
  · intro s h hnone
    simp only [ID.toWire, ID.from_string, h, hnone, if_true]
  · intro s o h hsome
    simp only [ID.toWire, ID.from_string, h, hsome, if_true]
  · intro i
    have h := not_isPrefixOf_of_head_ne (Int.repr i).data (intRepr_ne_dollar i)
    simp only [ID.toWire, ID.from_string, h, Bool.false_eq_true, if_false]

/-- Claim C1 (witness): the amended round-trip characterization evaluated on
concrete inputs of every variant. -/
theorem claim_C1_amended_witness :
    ID.from_string (ID.toWire (ID.objectId ⟨[0, 1, 2, 3, 4, 5, 6, 7, 8, 9, 10, 11]⟩)) =
      ID.objectId ⟨[0, 1, 2, 3, 4, 5, 6, 7, 8, 9, 10, 11]⟩
    ∧ ID.from_string (ID.toWire (ID.string "plain")) = ID.string "plain"
    ∧ ID.from_string (ID.toWire (ID.string "$oid:zz")) = ID.string "$oid:zz"
    ∧ ID.from_string (ID.toWire (ID.string "$oid:000102030405060708090a0b")) =
      ID.objectId ⟨[0, 1, 2, 3, 4, 5, 6, 7, 8, 9, 10, 11]⟩
    ∧ ID.from_string (ID.toWire (ID.i64 (-7))) = ID.string "-7" :=
  ⟨claim_C1_amended.1 _ (by decide) (by decide),
   claim_C1_amended.2.1 _ (by decide),
   claim_C1_amended.2.2.1 _ (by decide) (by decide),
   claim_C1_amended.2.2.2.1 _ _ (by decide) (by decide),
   claim_C1_amended.2.2.2.2 (-7)⟩

/-- BSON values, restricted to the constructors the embedded code ever
produces or branches on.  Floating-point values never occur in the service
code paths and are omitted. -/
inductive Bson where
  | null
  | boolean (b : Bool)
  | i32 (i : Int)
  | i64 (i : Int)
  | string (s : String)
  | objectId (o : ObjectId)
  | document (fields : List (String × Bson))
  | array (elems : List Bson)

/-- A BSON document: an ordered association list, mirroring the ordered-map
`Document` of the `bson` crate. -/
abbrev Doc := List (String × Bson)

/-- First value bound to a key (`Document::get`). -/
def docGet : Doc → String → Option Bson
  | [], _ => none
  | (k0, v0) :: rest, k => if k0 = k then some v0 else docGet rest k

/-- `Document::insert`: replace the value at an existing key in place, or
append the binding at the end. -/
def docInsert : Doc → String → Bson → Doc
  | [], k, v => [(k, v)]
  | (k0, v0) :: rest, k, v =>
    if k0 = k then (k, v) :: rest else (k0, v0) :: docInsert rest k v

/-- `Document::remove`: drop the binding for a key. -/
def docRemove : Doc → String → Doc
  | [], _ => []
  | (k0, v0) :: rest, k =>
    if k0 = k then docRemove rest k else (k0, v0) :: docRemove rest k

/-- `ID::with_bson` in `src/id.rs` (lines 151-158) is partial: the wildcard
arm is `panic!`, modelled by `none`. -/
def ID.withBson : Bson → Option ID
  | .string s => some (.string s)
  | .objectId o => some (.objectId o)
  | .i64 i => some (.i64 i)
  | _ => none

/-- `ID::to_bson` in `src/id.rs` (lines 160-166). -/
def ID.toBson : ID → Bson
  | .objectId o => .objectId o
  | .string s => .string s
  | .i64 i => .i64 i

/-- Equality test between scalar BSON values, as the modelled backend applies
it to filter targets.  Every filter the service constructs compares an id
scalar produced by `ID::to_bson`, so constructor-wise equality is the
behaviour exercised (MongoDB numeric cross-type coercion is not modelled). -/
def Bson.scalarEq : Bson → Bson → Bool
  | .null, .null => true
  | .boolean a, .boolean b => a == b
  | .i32 a, .i32 b => a == b
  | .i64 a, .i64 b => a == b
  | .string a, .string b => a == b
  | .objectId a, .objectId b => a == b
  | _, _ => false

/-- Dot-splitting of a field path, character by character; agrees with
`str::split('.')` on the paths the service builds with `format!`. -/
def splitChars : List Char → List (List Char)
  | [] => [[]]
  | c :: rest =>
    if c = '.' then [] :: splitChars rest
    else
      match splitChars rest with
      | [] => [[c]]
      | g :: gs => (c :: g) :: gs

/-- Segments of a dotted field path as the modelled backend parses it. -/
def pathSegs (s : String) : List String :=
  (splitChars s.data).map String.mk

/-- One filter condition `key = target` evaluated against a document.  The
service only ever builds one-segment (`_id`) and two-segment
(`field._id`) filter keys, so deeper paths are not modelled; a two-segment
key traverses either a sub-document or an array of sub-documents, as
MongoDB's query engine does. -/
def matchCond (d : Doc) (key : String) (target : Bson) : Bool :=
  match pathSegs key with
  | [k] =>
    match docGet d k with
    | some (.array xs) => xs.any (fun e => e.scalarEq target)
    | some v => v.scalarEq target
    | none => false
  | [k1, k2] =>
    match docGet d k1 with
    | some (.document sub) =>
      match docGet sub k2 with
      | some v => v.scalarEq target
      | none => false
    | some (.array xs) =>
      xs.any (fun e =>
        match e with
        | .document sub =>
          match docGet sub k2 with
          | some v => v.scalarEq target
          | none => false
        | _ => false)
    | _ => false
  | _ => false

/-- A conjunctive equality filter document evaluated against a document. -/
def matchFilter (filter : Doc) (d : Doc) : Bool :=
  filter.all (fun kv => matchCond d kv.1 kv.2)

/-- Condition on an array element derived from the filter entries scoped to
array field `f`; this is what binds the positional `$` operator. -/
def elemCond (filter : Doc) (f : String) (e : Bson) : Bool :=
  let conds := filter.filterMap (fun kv =>
    match pathSegs kv.1 with
    | [k1, k2] => if k1 = f then some (k2, kv.2) else none
    | _ => none)
  !conds.isEmpty &&
    (match e with
     | .document ed =>
       conds.all (fun c =>
         match docGet ed c.1 with
         | some v => v.scalarEq c.2
         | none => false)
     | _ => false)

/-- Index the positional `$` operator binds to for array field `f`: the
first element of the array matching the filter's conditions on `f`, resolved
against the document as it stood when the update matched. -/
def posMap (filter : Doc) (d : Doc) (f : String) : Option Nat :=
  match docGet d f with
  | some (.array xs) => xs.findIdx? (elemCond filter f)
  | _ => none

/-- `$set` application along a plain (non-positional) dotted path, creating
intermediate documents when absent as MongoDB does.  Setting through an
existing non-document value is an error in MongoDB; the service never does
it, and it is modelled as a no-op. -/
def setPlainPath : Doc → List String → Bson → Doc
  | d, [], _ => d
  | d, [k], v => docInsert d k v
  | d, k :: rest, v =>
    match docGet d k with
    | some (.document sub) => docInsert d k (.document (setPlainPath sub rest v))
    | none => docInsert d k (.document (setPlainPath [] rest v))
    | some _ => d

/-- `$set` application along already-split path segments, handling the
positional form `field.$.rest` with the positional binding `pos` fixed when
the update matched.  A positional path whose array or binding is missing is
an error in MongoDB; it is modelled as a no-op (the service only reaches it
when the filter matched, where the binding exists). -/
def setPathSegs (pos : String → Option Nat) (d : Doc) (segs : List String) (v : Bson) : Doc :=
  match segs with
  | f :: s :: rest =>
    if s = "$" then
      match docGet d f with
      | some (.array xs) =>
        match pos f with
        | some i =>
          match xs[i]? with
          | some (.document e) =>
            docInsert d f (.array (xs.set i (.document (setPlainPath e rest v))))
          | _ => d
        | none => d
      | _ => d
    else setPlainPath d (f :: s :: rest) v
  | segs => setPlainPath d segs v

/-- `$set` application for one dotted key. -/
def setPath (pos : String → Option Nat) (d : Doc) (key : String) (v : Bson) : Doc :=
  setPathSegs pos d (pathSegs key) v

/-- `$push` for one field.  The service always pushes `{ $each: [...] }`;
a missing field is created, a non-array field is a MongoDB error modelled
as a no-op. -/
def applyPush (d : Doc) (f : String) (spec : Bson) : Doc :=
  let items :=
    match spec with
    | .document sd =>
      match docGet sd "$each" with
      | some (.array xs) => xs
      | _ => [spec]
    | _ => [spec]
  match docGet d f with
  | some (.array xs) => docInsert d f (.array (xs ++ items))
  | none => docInsert d f (.array items)
  | some _ => d

/-- Does one array element match a `$pull` condition document?  A document
condition acts as a field-wise match on document elements; a scalar
condition matches equal scalars. -/
def pullMatches (cond e : Bson) : Bool :=
  match e, cond with
  | .document ed, .document cd =>
    cd.all (fun c =>
      match docGet ed c.1 with
      | some v => v.scalarEq c.2
      | none => false)
  | _, _ => e.scalarEq cond

/-- `$pull` for one field: remove every matching element of the array. -/
def applyPull (d : Doc) (f : String) (cond : Bson) : Doc :=
  match docGet d f with
  | some (.array xs) => docInsert d f (.array (xs.filter (fun e => !pullMatches cond e)))
  | _ => d

/-- Application of an update document (`$set` / `$push` / `$pull`, and
`$setOnInsert` only when `onInsert` holds) to one document, with the
positional binding resolved once against the document as matched. -/
def applyUpdateCore (onInsert : Bool) (filter update : Doc) (d : Doc) : Doc :=
  let pos := posMap filter d
  update.foldl (fun acc op =>
    match op.2 with
    | .document spec =>
      if op.1 = "$set" then spec.foldl (fun a kv => setPath pos a kv.1 kv.2) acc
      else if op.1 = "$push" then spec.foldl (fun a kv => applyPush a kv.1 kv.2) acc
      else if op.1 = "$pull" then spec.foldl (fun a kv => applyPull a kv.1 kv.2) acc
      else if op.1 = "$setOnInsert" ∧ onInsert then
        spec.foldl (fun a kv => setPath pos a kv.1 kv.2) acc
      else acc
    | _ => acc) d

/-- Update application to an existing (matched) document. -/
def applyUpdateTo (filter update : Doc) (d : Doc) : Doc :=
  applyUpdateCore false filter update d

/-- A driver-level MongoDB error (`mongodb::error::Error`), kept abstract. -/
structure MongoErr where
  msg : String
deriving DecidableEq

/-- The modelled backend: the collection contents, a flag making every
driver call fail (to exercise error paths), and the id value the backend
generates for a document inserted without `_id`. -/
structure Backend where
  docs : List Doc
  fail : Bool
  gen : Bson

/-- Replace the first document satisfying `p` by its image under `g`. -/
def updateFirst (p : Doc → Bool) (g : Doc → Doc) : List Doc → List Doc
  | [] => []
  | d :: rest => if p d then g d :: rest else d :: updateFirst p g rest

/-- Remove the first document satisfying `p`. -/
def removeFirst (p : Doc → Bool) : List Doc → List Doc
  | [] => []
  | d :: rest => if p d then rest else d :: removeFirst p rest

/-- Driver error used whenever the fail flag is set. -/
def driverErr : MongoErr := ⟨"driver error"⟩

/-- `Collection::find_one`. -/
def findOneB (b : Backend) (filter : Doc) : Except MongoErr (Option Doc) :=
  if b.fail then .error driverErr
  else .ok (b.docs.find? (matchFilter filter))

/-- Equality fields of a filter, seeding the document created by an upsert
whose filter matched nothing. -/
def upsertSeed (filter : Doc) : Doc :=
  filter.filter (fun kv => (pathSegs kv.1).length = 1)

/-- `Collection::update_one`: apply the update to the first matching
document, returning the matched count; with `upsert` set, a non-matching
filter inserts a seeded document with `$setOnInsert` applied. -/
def updateOneB (b : Backend) (filter update : Doc) (upsert : Bool) :
    Except MongoErr (Backend × Nat) :=
  if b.fail then .error driverErr
  else if b.docs.any (matchFilter filter) then
    .ok ({ b with docs := updateFirst (matchFilter filter) (applyUpdateTo filter update) b.docs }, 1)
  else if upsert then
    .ok ({ b with docs := b.docs ++ [applyUpdateCore true filter update (upsertSeed filter)] }, 0)
  else .ok (b, 0)

/-- `Collection::delete_one`: delete the first matching document, returning
the deleted count. -/
def deleteOneB (b : Backend) (filter : Doc) : Except MongoErr (Backend × Nat) :=
  if b.fail then .error driverErr
  else if b.docs.any (matchFilter filter) then
    .ok ({ b with docs := removeFirst (matchFilter filter) b.docs }, 1)
  else .ok (b, 0)

/-- `Collection::insert_one`: store the document (generating an `_id` when
absent) and return the inserted id. -/
def insertOneB (b : Backend) (d : Doc) : Except MongoErr (Backend × Bson) :=
  if b.fail then .error driverErr
  else
    match docGet d "_id" with
    | some v => .ok ({ b with docs := b.docs ++ [d] }, v)
    | none => .ok ({ b with docs := b.docs ++ [docInsert d "_id" b.gen] }, b.gen)

/-- `Collection::insert_many` (unordered): store every document and return
the inserted ids. -/
def insertManyB (b : Backend) (ds : List Doc) : Except MongoErr (Backend × List Bson) :=
  if b.fail then .error driverErr
  else
    let stored := ds.map (fun d =>
      match docGet d "_id" with
      | some _ => d
      | none => docInsert d "_id" b.gen)
    .ok ({ b with docs := b.docs ++ stored },
      stored.map (fun d => (docGet d "_id").getD .null))

/-- The `ServiceError` enum of `src/error.rs`. -/
inductive ServiceError where
  | ioError (msg : String)
  | parseError (msg : String)
  | mongoError (e : MongoErr)
  | connectionError (msg : String)
  | invalidCursor (msg : String)
  | notFound (msg : String)
  | unknown (msg : String)
deriving DecidableEq

/-- Outcome of a service call: a typed result, a typed error, or a Rust
panic (which the Rust code does not return at all). -/
inductive OpResult (α : Type) where
  | ok (a : α)
  | err (e : ServiceError)
  | panicked (msg : String)
deriving DecidableEq

/-- Is the outcome a typed `ServiceError`? -/
def OpResult.isError {α : Type} : OpResult α → Bool
  | .err _ => true
  | _ => false

/-- The `DeleteResponse` struct of `src/base.rs` (lines 15-19). -/
structure DeleteResponse where
  id : ID
  success : Bool
deriving DecidableEq

/-- A value to be serialized with `bson::to_bson`: either its BSON image, or
a serialization failure (the generic `T: Serialize` boundary of the Rust
code). -/
inductive Ser where
  | val (b : Bson)
  | bad (msg : String)

/-- `bson::to_bson` at the modelled boundary. -/
def Ser.toBson : Ser → Except String Bson
  | .val b => .ok b
  | .bad m => .error m

/-- `BaseService::id_parameter`, the default `_id` (src/base.rs lines
101-103). -/
def idParameter : String := "_id"

/-- The audit block built by every inserting operation: `date_created` and
`date_modified` from the same timestamp, and both actor ids from the same
optional user id (src/base.rs, e.g. lines 469-475). -/
def nodeBlock (ts : Nat) (userId : Option ID) : Doc :=
  let base : Doc := [("date_created", .i64 ts), ("date_modified", .i64 ts)]
  match userId with
  | some uid => base ++ [("created_by_id", uid.toBson), ("updated_by_id", uid.toBson)]
  | none => base

/-- Per-item stamping fold of `insert_embedded` (src/base.rs lines 346-380):
serialize, attach the audit block, special-case a `Bson::Null` `_id` to a
generated fallback id, otherwise read the id with the partial
`ID::with_bson` (`none` models that panic).  Serialization failures and
non-document serializations are skipped.  `uuid n` stands for the n-th
`uuid::Uuid::new_v4()` drawn in the fold.  This is the per-item id step:
a `Bson::Null` or absent `_id` takes the generated fallback id, any other
`_id` goes through the partial `ID::with_bson`. -/
def stampStepEmbedded (uuid : Nat → String) (n : Nat) (d : Doc) : Option (ID × Doc) :=
  match docGet d "_id" with
  | some .null => some (.string (uuid n), docInsert d "_id" (.string (uuid n)))
  | some other => (ID.withBson other).map (fun i => (i, d))
  | none => some (.string (uuid n), docInsert d "_id" (.string (uuid n)))

/-- The whole stamping fold of `insert_embedded`: serialize each item,
attach the audit block, and run the id step; serialization failures and
non-document serializations are skipped, and `none` models the
`ID::with_bson` panic aborting the call. -/
def stampEmbedded (userId : Option ID) (ts : Nat) (uuid : Nat → String) :
    List Ser → Nat → Option (List ID × List Doc)
  | [], _ => some ([], [])
  | item :: rest, n =>
    match Ser.toBson item with
    | .error _ => stampEmbedded userId ts uuid rest n
    | .ok (.document d) =>
      match stampStepEmbedded uuid n d with
      | none => none
      | some (i, d') =>
        match stampEmbedded userId ts uuid rest (n + 1) with
        | none => none
        | some (ids, docs) =>
          some (i :: ids, docInsert d' "node" (.document (nodeBlock ts userId)) :: docs)
    | .ok _ => stampEmbedded userId ts uuid rest n

/-- Per-item stamping fold of `upsert_embedded` (src/base.rs lines 410-435):
unlike `insert_embedded` it applies `ID::with_bson` to any present `_id`
(including `Bson::Null`, where it panics) and only generates a fallback id
when `_id` is absent. -/
def stampStepUpsert (uuid : Nat → String) (n : Nat) (d : Doc) : Option (ID × Doc × Nat) :=
  match docGet d "_id" with
  | some v => (ID.withBson v).map (fun i => (i, d, n))
  | none => some (.string (uuid n), docInsert d "_id" (.string (uuid n)), n + 1)

def stampUpsert (userId : Option ID) (ts : Nat) (uuid : Nat → String) :
    List Ser → Nat → Option (List ID × List Doc)
  | [], _ => some ([], [])
  | item :: rest, n =>
    match Ser.toBson item with
    | .error _ => stampUpsert userId ts uuid rest n
    | .ok (.document d) =>
      match stampStepUpsert uuid n d with
      | none => none
      | some (i, d', n') =>
        match stampUpsert userId ts uuid rest n' with
        | none => none
        | some (ids, docs) =>
          some (i :: ids, docInsert d' "node" (.document (nodeBlock ts userId)) :: docs)
    | .ok _ => stampUpsert userId ts uuid rest n

/-- Per-item stamping fold of `insert_many` (src/base.rs lines 510-528):
only the audit block is attached; `_id` is left untouched. -/
def stampMany (userId : Option ID) (ts : Nat) : List Ser → List Doc
  | [] => []
  | item :: rest =>
    match Ser.toBson item with
    | .error _ => stampMany userId ts rest
    | .ok (.document d) =>
      docInsert d "node" (.document (nodeBlock ts userId)) :: stampMany userId ts rest
    | .ok _ => stampMany userId ts rest

/-- The document `insert_one` hands to the backend (src/base.rs lines
468-485): audit block attached, then a `Bson::Null` id field stripped so
the backend generates one. -/
def insertOneDoc (d : Doc) (userId : Option ID) (ts : Nat) : Doc :=
  let d' := docInsert d "node" (.document (nodeBlock ts userId))
  match docGet d' idParameter with
  | some .null => docRemove d' idParameter
  | _ => d'

/-- `BaseService::insert_one` (src/base.rs lines 457-495).  The ambient
clock read is passed in as `ts`; `ID::with_bson` on the generated id is the
partial constructor, so an exotic id type panics. -/
def insert_one (b : Backend) (newItem : Ser) (userId : Option ID) (ts : Nat) :
    OpResult ID × Backend :=
  match Ser.toBson newItem with
  | .error e => (.err (.parseError e), b)
  | .ok (.document document) =>
    match insertOneB b (insertOneDoc document userId ts) with
    | .error e => (.err (.mongoError e), b)
    | .ok (b', insertedId) =>
      match ID.withBson insertedId with
      | some i => (.ok i, b')
      | none => (.panicked "Invalid id type used", b')
  | .ok _ =>
    (.err (.parseError "Error converting the BSON object into a MongoDB document"), b)

/-- `BaseService::insert_many` (src/base.rs lines 497-546): stamp every
serializable document item, insert unordered, and read the returned ids
with the partial `ID::with_bson`. -/
def insert_many (b : Backend) (newItems : List Ser) (userId : Option ID) (ts : Nat) :
    OpResult (List ID) × Backend :=
  let docs := stampMany userId ts newItems
  match insertManyB b docs with
  | .error e => (.err (.mongoError e), b)
  | .ok (b', rawIds) =>
    match rawIds.mapM ID.withBson with
    | some ids => (.ok ids, b')
    | none => (.panicked "Invalid id type used", b')

/-- `BaseService::insert_embedded` (src/base.rs lines 323-387).  The parent
lookup result is consumed with `.unwrap()`, so a driver failure there is a
panic, not an error; a missing parent is `NotFound` before any write; on
success the stamped items are appended with one `$push $each` update. -/
def insert_embedded (b : Backend) (id : ID) (fieldPath : String) (newItems : List Ser)
    (userId : Option ID) (ts : Nat) (uuid : Nat → String) :
    OpResult (List ID) × Backend :=
  let query : Doc := [(idParameter, id.toBson)]
  match findOneB b query with
  | .error _ => (.panicked "called unwrap on an Err value", b)
  | .ok none => (.err (.notFound "Unable to find item"), b)
  | .ok (some _) =>
    match stampEmbedded userId ts uuid newItems 0 with
    | none => (.panicked "Invalid id type used", b)
    | some (ids, docs) =>
      let updateDoc : Doc :=
        [("$push", .document [(fieldPath, .document [("$each", .array (docs.map .document))])])]
      match updateOneB b query updateDoc false with
      | .error e => (.err (.mongoError e), b)
      | .ok (b', _) => (.ok ids, b')

/-- `BaseService::upsert_embedded` (src/base.rs lines 389-455): stamp the
items, optionally attach the serialized parent under `$setOnInsert`, and
issue one upserting `$push $each` update. -/
def upsert_embedded (b : Backend) (id : ID) (fieldPath : String) (newItems : List Ser)
    (userId : Option ID) (parent : Option Ser) (ts : Nat) (uuid : Nat → String) :
    OpResult (List ID) × Backend :=
  match stampUpsert userId ts uuid newItems 0 with
  | none => (.panicked "Invalid id type used", b)
  | some (ids, docs) =>
    let pushDoc : Doc :=
      [("$push", .document [(fieldPath, .document [("$each", .array (docs.map .document))])])]
    let withParent : Except String Doc :=
      match parent with
      | some p =>
        match Ser.toBson p with
        | .error e => .error e
        | .ok pb => .ok (docInsert pushDoc "$setOnInsert" pb)
      | none => .ok pushDoc
    match withParent with
    | .error e => (.err (.parseError e), b)
    | .ok updateDoc =>
      match updateOneB b [(idParameter, id.toBson)] updateDoc true with
      | .error e => (.err (.mongoError e), b)
      | .ok (b', _) => (.ok ids, b')

/-- `BaseService::delete_one_by_id` (src/base.rs lines 548-559): success is
`deleted_count == 1`, a non-match is an ordinary `success: false` result. -/
def delete_one_by_id (b : Backend) (id : ID) : OpResult DeleteResponse × Backend :=
  let filter : Doc := [(idParameter, id.toBson)]
  match deleteOneB b filter with
  | .ok (b', r) => (.ok ⟨id, r == 1⟩, b')
  | .error e => (.err (.mongoError e), b)

/-- `BaseService::delete_embedded` (src/base.rs lines 570-585): one `$pull`
update; the response is `success: true` whenever the driver call returns,
with no check that anything was removed. -/
def delete_embedded (b : Backend) (id : ID) (fieldPath : String) (embeddedId : ID) :
    OpResult DeleteResponse × Backend :=
  let query : Doc := [(idParameter, id.toBson)]
  let updateDoc : Doc :=
    [("$pull", .document [(fieldPath, .document [(idParameter, embeddedId.toBson)])])]
  match updateOneB b query updateDoc false with
  | .error e => (.err (.mongoError e), b)
  | .ok (b', _) => (.ok ⟨embeddedId, true⟩, b')

/-- `BaseService::update_one` (src/base.rs lines 646-687): a `$set` of the
serialized fields plus refreshed `node.date_modified` / `node.updated_by_id`,
filtered by id, followed by a re-read that yields `NotFound` when empty.
Deserialization of the re-read document is modelled as the document itself. -/
def update_one (b : Backend) (id : ID) (updateItem : Ser) (userId : Option ID) (ts : Nat) :
    OpResult Doc × Backend :=
  let search : Doc := [(idParameter, id.toBson)]
  match Ser.toBson updateItem with
  | .error e => (.err (.parseError e), b)
  | .ok (.document document) =>
    let document := docInsert document "node.date_modified" (.i64 ts)
    let document :=
      match userId with
      | some uid => docInsert document "node.updated_by_id" uid.toBson
      | none => document
    match updateOneB b search [("$set", .document document)] false with
    | .error e => (.err (.mongoError e), b)
    | .ok (b', _) =>
      match findOneB b' search with
      | .error e => (.err (.mongoError e), b')
      | .ok (some doc) => (.ok doc, b')
      | .ok none => (.err (.notFound "Unable to find item"), b')
  | .ok _ => (.err (.unknown "Invalid update document"), b)

/-- The `$set` payload `update_embedded` builds (src/base.rs lines 609-621):
every supplied field keyed through the positional `fieldPath.$` path, plus
that element's refreshed `node.date_modified` / `node.updated_by_id`. -/
def embeddedUpdateDoc (fieldPath : String) (document : Doc) (userId : Option ID)
    (ts : Nat) : Doc :=
  let arrayPath := fieldPath ++ ".$"
  let updateDoc : Doc :=
    document.foldl (fun acc kv => docInsert acc (arrayPath ++ "." ++ kv.1) kv.2) []
  let updateDoc := docInsert updateDoc (arrayPath ++ ".node.date_modified") (.i64 ts)
  match userId with
  | some uid => docInsert updateDoc (arrayPath ++ ".node.updated_by_id") uid.toBson
  | none => updateDoc

/-- `BaseService::update_embedded` (src/base.rs lines 587-644): filter on
`(id, fieldPath._id = embeddedId)`, `$set` every supplied field through the
positional `fieldPath.$` path plus that element's refreshed audit fields,
then re-read the whole parent by id. -/
def update_embedded (b : Backend) (id : ID) (fieldPath : String) (embeddedId : ID)
    (updateItem : Ser) (userId : Option ID) (ts : Nat) : OpResult Doc × Backend :=
  let searchEmbedded : Doc :=
    [(idParameter, id.toBson), (fieldPath ++ "." ++ idParameter, embeddedId.toBson)]
  match Ser.toBson updateItem with
  | .error e => (.err (.parseError e), b)
  | .ok (.document document) =>
    let updateDoc := embeddedUpdateDoc fieldPath document userId ts
    let search : Doc := [(idParameter, id.toBson)]
    match updateOneB b searchEmbedded [("$set", .document updateDoc)] false with
    | .error e => (.err (.mongoError e), b)
    | .ok (b', _) =>
      match findOneB b' search with
      | .error e => (.err (.mongoError e), b')
      | .ok (some doc) => (.ok doc, b')
      | .ok none => (.err (.notFound "Unable to find item"), b')
  | .ok _ => (.err (.unknown "Unable to update document"), b)

/-- `BaseService::find_one` (src/base.rs lines 241-254), with
deserialization modelled as the document itself. -/
def find_one (b : Backend) (filter : Doc) : OpResult (Option Doc) × Backend :=
  match findOneB b filter with
  | .error e => (.err (.mongoError e), b)
  | .ok r => (.ok r, b)

/-- Scan direction handed to the pagination cursor. -/
inductive CursorDirection where
  | previous
  | next
deriving DecidableEq

/-- The query plan `find` builds before delegating to `PaginatedCursor`. -/
structure FindQuery where
  limit : Int
  skip : Int
  sort : Doc
  cursor : Option String
  direction : CursorDirection

/-- `DEFAULT_LIMIT` (src/base.rs line 38). -/
def default_limit : Int := 25

/-- `BaseService::default_sort` (src/base.rs lines 105-107). -/
def default_sort : Doc := [(idParameter, .i32 1)]

/-- The option/cursor construction of `BaseService::find` (src/base.rs lines
130-151): limit/skip/sort defaults, and the `is_previous_query` choice of
scan direction (`before` present and `after` absent ⇒ a `Previous` cursor
seeded with `before`; otherwise a forward cursor seeded with `after`). -/
def findQueryPlan (sort : Option Doc) (limit : Option Int)
    (after before : Option String) (skip : Option Int) : FindQuery :=
  let foLimit := match limit with | some l => l | none => default_limit
  let foSkip := match skip with | some s => s | none => 0
  let foSort := match sort with | some s => s | none => default_sort
  if before.isSome && after.isNone then
    ⟨foLimit, foSkip, foSort, before, .previous⟩
  else
    ⟨foLimit, foSkip, foSort, after, .next⟩

/- Document-lookup lemmas. -/

theorem docGet_docInsert_self : ∀ (d : Doc) (k : String) (v : Bson),
    docGet (docInsert d k v) k = some v := by
  intro d k v
  induction d with
  | nil => simp [docInsert, docGet]
  | cons kv rest ih =>
    obtain ⟨k0, v0⟩ := kv
    by_cases hk : k0 = k
    · simp [docInsert, docGet, hk]
    · simp [docInsert, docGet, hk, ih]

theorem docGet_docInsert_ne : ∀ (d : Doc) (k k' : String) (v : Bson), k' ≠ k →
    docGet (docInsert d k v) k' = docGet d k' := by
  intro d k k' v h
  induction d with
  | nil =>
    have : ¬ k = k' := fun hh => h hh.symm
    simp [docInsert, docGet, this]
  | cons kv rest ih =>
    obtain ⟨k0, v0⟩ := kv
    by_cases hk : k0 = k
    · have : ¬ k = k' := fun hh => h hh.symm
      simp [docInsert, docGet, hk, this]
    · simp only [docInsert, hk, if_false, docGet]
      by_cases hk' : k0 = k'
      · simp [hk']
      · simp [hk', ih]

theorem docGet_docRemove_ne : ∀ (d : Doc) (k k' : String), k' ≠ k →
    docGet (docRemove d k) k' = docGet d k' := by
  intro d k k' h
  induction d with
  | nil => rfl
  | cons kv rest ih =>
    obtain ⟨k0, v0⟩ := kv
    have hkk : ¬ k = k' := fun hh => h hh.symm
    by_cases hk : k0 = k
    · have hne : ¬ k0 = k' := by rw [hk]; exact hkk
      simp [docRemove, docGet, hk, hne, ih, hkk]
    · by_cases hk' : k0 = k'
      · have hne : ¬ k' = k := fun hh => h hh
        simp [docRemove, docGet, hk, hk', hne]
      · simp [docRemove, docGet, hk, hk', ih]

theorem mem_docInsert : ∀ (d : Doc) (k : String) (v : Bson) (kv : String × Bson),
    kv ∈ docInsert d k v → kv ∈ d ∨ kv = (k, v) := by
  intro d k v kv
  induction d with
  | nil => intro h; simp [docInsert] at h; exact Or.inr h
  | cons kv0 rest ih =>
    obtain ⟨k0, v0⟩ := kv0
    by_cases hk : k0 = k
    · simp only [docInsert, hk, if_true]
      intro h
      rcases List.mem_cons.mp h with h1 | h2
      · exact Or.inr h1
      · exact Or.inl (List.mem_cons_of_mem _ h2)
    · simp only [docInsert, hk, if_false]
      intro h
      rcases List.mem_cons.mp h with h1 | h2
      · exact Or.inl (h1 ▸ List.mem_cons_self _ _)
      · rcases ih h2 with h3 | h4
        · exact Or.inl (List.mem_cons_of_mem _ h3)
        · exact Or.inr h4

/-- Claim C9: `find` issues a backward (`Previous`) scan exactly when
`before` is present and `after` is absent, seeding the cursor with `before`;
in every other case (after present, or neither present) it issues a forward
scan seeded with `after` (src/base.rs lines 146-151). -/
theorem claim_C9_find_direction (sort : Option Doc) (limit : Option Int)
    (after before : Option String) (skip : Option Int) :
    (before.isSome = true → after = none →
      (findQueryPlan sort limit after before skip).direction = .previous ∧
      (findQueryPlan sort limit after before skip).cursor = before)
    ∧ ((after.isSome = true ∨ before = none) →
      (findQueryPlan sort limit after before skip).direction = .next ∧
      (findQueryPlan sort limit after before skip).cursor = after) := by
  cases after <;> cases before <;> simp [findQueryPlan]

/-- Claim C9 (witness): the three direction scenarios on concrete cursors. -/
theorem claim_C9_find_direction_witness :
    (findQueryPlan none none none (some "b") none).direction = .previous
    ∧ (findQueryPlan none none (some "a") (some "b") none).direction = .next
    ∧ (findQueryPlan none none none none none).direction = .next :=
  ⟨((claim_C9_find_direction none none none (some "b") none).1 rfl rfl).1,
   ((claim_C9_find_direction none none (some "a") (some "b") none).2 (Or.inl rfl)).1,
   ((claim_C9_find_direction none none none none none).2 (Or.inr rfl)).1⟩

/-- Claim C4: `delete_one_by_id` echoes the argument id and reports
`success` exactly when the backend matched (and hence deleted) one
document; a non-match is an ordinary `success: false` result, not an
error. -/
theorem claim_C4_delete_one_by_id (b : Backend) (id : ID) (h : b.fail = false) :
    (delete_one_by_id b id).1 =
      .ok ⟨id, b.docs.any (matchFilter [(idParameter, id.toBson)])⟩ := by
  unfold delete_one_by_id deleteOneB
  cases hany : b.docs.any (matchFilter [(idParameter, id.toBson)]) <;> simp [h, hany]

/-- Claim C4 (witness): deleting an existing document succeeds; repeating
the delete on the resulting state yields `success: false`, not an error. -/
theorem claim_C4_delete_one_by_id_witness :
    (delete_one_by_id ⟨[[(idParameter, Bson.string "x")]], false, Bson.null⟩
        (ID.string "x")).1 = .ok ⟨ID.string "x", true⟩
    ∧ (delete_one_by_id
        (delete_one_by_id ⟨[[(idParameter, Bson.string "x")]], false, Bson.null⟩
          (ID.string "x")).2 (ID.string "x")).1 = .ok ⟨ID.string "x", false⟩ :=
  ⟨claim_C4_delete_one_by_id _ _ rfl, claim_C4_delete_one_by_id _ _ rfl⟩

/-- Claim C5: `delete_embedded` answers `{id: embeddedId, success: true}`
whenever the backend update call completes without error, with no check
that any array element was actually removed. -/
theorem claim_C5_delete_embedded (b : Backend) (id : ID) (fieldPath : String)
    (embeddedId : ID) (h : b.fail = false) :
    (delete_embedded b id fieldPath embeddedId).1 = .ok ⟨embeddedId, true⟩ := by
  unfold delete_embedded updateOneB
  cases hany : b.docs.any (matchFilter [(idParameter, id.toBson)]) <;> simp [h, hany]

/-- Claim C5 (witness): even on an empty collection, where nothing matches
and nothing is removed, the response is `success: true`. -/
theorem claim_C5_delete_embedded_witness :
    (delete_embedded ⟨[], false, Bson.null⟩ (ID.string "p") "items" (ID.string "a")).1 =
      .ok ⟨ID.string "a", true⟩ :=
  claim_C5_delete_embedded _ _ _ _ rfl

/-- Claim C2: when no document matches the parent id, the non-upserting
`insert_embedded` returns `NotFound` and the backend state is returned
exactly as it was — no array mutation, partial or otherwise. -/
theorem claim_C2_insert_embedded_notfound (b : Backend) (id : ID) (fieldPath : String)
    (newItems : List Ser) (userId : Option ID) (ts : Nat) (uuid : Nat → String)
    (hfail : b.fail = false)
    (hnone : b.docs.find? (matchFilter [(idParameter, id.toBson)]) = none) :
    insert_embedded b id fieldPath newItems userId ts uuid =
      (.err (.notFound "Unable to find item"), b) := by
  unfold insert_embedded findOneB
  simp [hfail, hnone]

/-- Claim C2 (witness): inserting under a missing parent on an empty
collection fails with `NotFound` and leaves the collection untouched. -/
theorem claim_C2_insert_embedded_notfound_witness :
    insert_embedded ⟨[], false, Bson.null⟩ (ID.string "p") "items"
        [Ser.val (Bson.document [("qty", Bson.i64 1)])] none 0 (fun _ => "u0") =
      (.err (.notFound "Unable to find item"), ⟨[], false, Bson.null⟩) :=
  claim_C2_insert_embedded_notfound _ _ _ _ _ _ _ rfl rfl

/-- Claim C10: `ID::with_bson` is defined exactly on `String`, `ObjectId`
and `I64` BSON values and panics on every other constructor; and since
`insert_one` / `insert_many` apply it to the backend-generated inserted
ids, an insert whose generated id has another BSON type panics instead of
returning a typed error. -/
theorem claim_C10_with_bson_partial :
    (∀ s, ID.withBson (.string s) = some (.string s))
    ∧ (∀ o, ID.withBson (.objectId o) = some (.objectId o))
    ∧ (∀ i, ID.withBson (.i64 i) = some (.i64 i))
    ∧ ID.withBson .null = none
    ∧ (∀ bo, ID.withBson (.boolean bo) = none)
    ∧ (∀ i, ID.withBson (.i32 i) = none)
    ∧ (∀ d, ID.withBson (.document d) = none)
    ∧ (∀ a, ID.withBson (.array a) = none)
    ∧ (insert_one ⟨[], false, Bson.i32 7⟩ (.val (.document [])) none 0).1 =
        .panicked "Invalid id type used"
    ∧ (insert_many ⟨[], false, Bson.i32 7⟩ [.val (.document [])] none 0).1 =
        .panicked "Invalid id type used" :=
  ⟨fun _ => rfl, fun _ => rfl, fun _ => rfl, rfl, fun _ => rfl, fun _ => rfl,
   fun _ => rfl, fun _ => rfl, rfl, rfl⟩

/-- Claim C3 (counterexample): not every backend failure surfaces as a typed
`ServiceError`.  `insert_embedded` consumes its parent lookup with
`.unwrap()` (src/base.rs line 336), so a failing driver call there panics
instead of returning an error. -/
theorem claim_C3_counterexample :
    (insert_embedded ⟨[], true, Bson.null⟩ (ID.string "p") "items" [] none 0
        (fun _ => "u0")).1 = .panicked "called unwrap on an Err value" := rfl

/-- A predicate false on every element finds nothing. -/
theorem find?_eq_none_of_all_false {α : Type} (p : α → Bool) (l : List α)
    (h : ∀ x ∈ l, p x = false) : l.find? p = none :=
  List.find?_eq_none.mpr (fun x hx => by simp [h x hx])

/-- Claim C6: `update_one` applies the stamped `$set` filtered by id and
then re-reads by the same id filter; the call returns the re-read document
when one exists, and fails with `NotFound` (rather than silently
succeeding) when the re-read finds nothing. -/
theorem claim_C6_update_one (b : Backend) (id : ID) (d : Doc) (userId : Option ID)
    (ts : Nat) (h : b.fail = false) :
    (update_one b id (.val (.document d)) userId ts).1 =
      (match (update_one b id (.val (.document d)) userId ts).2.docs.find?
          (matchFilter [(idParameter, id.toBson)]) with
       | none => OpResult.err (.notFound "Unable to find item")
       | some doc => OpResult.ok doc) := by
  unfold update_one updateOneB findOneB
  cases hany : b.docs.any (matchFilter [(idParameter, id.toBson)]) <;>
    · simp only [Ser.toBson, h, hany, Bool.false_eq_true, if_false, if_true]
      split <;> simp_all
      all_goals
        first
        | rw [find?_eq_none_of_all_false _ _ hany]
        | (rename_i hnone; rw [find?_eq_none_of_all_false _ _ hnone])

/-- Claim C6 (witness): updating a missing id surfaces `NotFound` instead of
silently succeeding. -/
theorem claim_C6_update_one_witness :
    (update_one ⟨[], false, Bson.null⟩ (ID.string "x")
        (.val (.document [("name", Bson.string "b")])) none 5).1 =
      .err (.notFound "Unable to find item") :=
  claim_C6_update_one _ _ _ _ _ rfl

/-- The audit block carries equal creation and modification timestamps and
equal (possibly absent) actor ids. -/
theorem nodeBlock_fields (ts : Nat) (uid : Option ID) :
    docGet (nodeBlock ts uid) "date_created" = some (.i64 ts)
    ∧ docGet (nodeBlock ts uid) "date_modified" = some (.i64 ts)
    ∧ docGet (nodeBlock ts uid) "created_by_id" = uid.map ID.toBson
    ∧ docGet (nodeBlock ts uid) "updated_by_id" = uid.map ID.toBson := by
  cases uid <;> exact ⟨rfl, rfl, rfl, rfl⟩

/-- Every document produced by the `insert_embedded` stamping fold carries
the freshly built audit block under `node`. -/
theorem stampEmbedded_node (uid : Option ID) (ts : Nat) (uuid : Nat → String) :
    ∀ (items : List Ser) (n : Nat) (r : List ID × List Doc),
      stampEmbedded uid ts uuid items n = some r →
      ∀ d ∈ r.2, docGet d "node" = some (.document (nodeBlock ts uid)) := by
  intro items
  induction items with
  | nil =>
    intro n r h d hd
    cases h
    simp at hd
  | cons item rest ih =>
    intro n r h d hd
    cases htb : Ser.toBson item with
    | error e =>
      rw [stampEmbedded, htb] at h
      exact ih n r h d hd
    | ok v =>
      cases v with
      | document dd =>
        simp only [stampEmbedded, htb] at h
        cases hstep : stampStepEmbedded uuid n dd with
        | none => simp [hstep] at h
        | some pr =>
          obtain ⟨i, d'⟩ := pr
          cases hrest : stampEmbedded uid ts uuid rest (n + 1) with
          | none => simp [hstep, hrest] at h
          | some pr2 =>
            obtain ⟨ids, docs⟩ := pr2
            simp only [hstep, hrest] at h
            injection h with h
            subst h
            rcases List.mem_cons.mp hd with h1 | h2
            · rw [h1]; exact docGet_docInsert_self _ _ _
            · exact ih (n + 1) _ hrest d h2
      | null =>
        rw [stampEmbedded, htb] at h
        exact ih n r h d hd
      | boolean bb =>
        rw [stampEmbedded, htb] at h
        exact ih n r h d hd
      | i32 ii =>
        rw [stampEmbedded, htb] at h
        exact ih n r h d hd
      | i64 ii =>
        rw [stampEmbedded, htb] at h
        exact ih n r h d hd
      | string ss =>
        rw [stampEmbedded, htb] at h
        exact ih n r h d hd
      | objectId oo =>
        rw [stampEmbedded, htb] at h
        exact ih n r h d hd
      | array aa =>
        rw [stampEmbedded, htb] at h
        exact ih n r h d hd

/-- Every document produced by the `upsert_embedded` stamping fold carries
the freshly built audit block under `node`. -/
theorem stampUpsert_node (uid : Option ID) (ts : Nat) (uuid : Nat → String) :
    ∀ (items : List Ser) (n : Nat) (r : List ID × List Doc),
      stampUpsert uid ts uuid items n = some r →
      ∀ d ∈ r.2, docGet d "node" = some (.document (nodeBlock ts uid)) := by
  intro items
  induction items with
  | nil =>
    intro n r h d hd
    cases h
    simp at hd
  | cons item rest ih =>
    intro n r h d hd
    cases htb : Ser.toBson item with
    | error e =>
      rw [stampUpsert, htb] at h
      exact ih n r h d hd
    | ok v =>
      cases v with
      | document dd =>
        simp only [stampUpsert, htb] at h
        cases hstep : stampStepUpsert uuid n dd with
        | none => simp [hstep] at h
        | some pr =>
          obtain ⟨i, d', n'⟩ := pr
          cases hrest : stampUpsert uid ts uuid rest n' with
          | none => simp [hstep, hrest] at h
          | some pr2 =>
            obtain ⟨ids, docs⟩ := pr2
            simp only [hstep, hrest] at h
            injection h with h
            subst h
            rcases List.mem_cons.mp hd with h1 | h2
            · rw [h1]; exact docGet_docInsert_self _ _ _
            · exact ih n' _ hrest d h2
      | null =>
        rw [stampUpsert, htb] at h
        exact ih n r h d hd
      | boolean bb =>
        rw [stampUpsert, htb] at h
        exact ih n r h d hd
      | i32 ii =>
        rw [stampUpsert, htb] at h
        exact ih n r h d hd
      | i64 ii =>
        rw [stampUpsert, htb] at h
        exact ih n r h d hd
      | string ss =>
        rw [stampUpsert, htb] at h
        exact ih n r h d hd
      | objectId oo =>
        rw [stampUpsert, htb] at h
        exact ih n r h d hd
      | array aa =>
        rw [stampUpsert, htb] at h
        exact ih n r h d hd

/-- Every document produced by the `insert_many` stamping fold carries the
freshly built audit block under `node`. -/
theorem stampMany_node (uid : Option ID) (ts : Nat) :
    ∀ (items : List Ser), ∀ d ∈ stampMany uid ts items,
      docGet d "node" = some (.document (nodeBlock ts uid)) := by
  intro items
  induction items with
  | nil => intro d hd; simp [stampMany] at hd
  | cons item rest ih =>
    intro d hd
    cases htb : Ser.toBson item with
    | error e =>
      rw [stampMany, htb] at hd
      exact ih d hd
    | ok v =>
      cases v with
      | document dd =>
        rw [stampMany, htb] at hd
        rcases List.mem_cons.mp hd with h1 | h2
        · rw [h1]; exact docGet_docInsert_self _ _ _
        · exact ih d h2
      | null => rw [stampMany, htb] at hd; exact ih d hd
      | boolean bb => rw [stampMany, htb] at hd; exact ih d hd
      | i32 ii => rw [stampMany, htb] at hd; exact ih d hd
      | i64 ii => rw [stampMany, htb] at hd; exact ih d hd
      | string ss => rw [stampMany, htb] at hd; exact ih d hd
      | objectId oo => rw [stampMany, htb] at hd; exact ih d hd
      | array aa => rw [stampMany, htb] at hd; exact ih d hd

/-- The document `insert_one` hands to the backend carries the freshly
built audit block under `node` (the optional null-id strip does not touch
it). -/
theorem insertOneDoc_node (d : Doc) (uid : Option ID) (ts : Nat) :
    docGet (insertOneDoc d uid ts) "node" = some (.document (nodeBlock ts uid)) := by
  have hself := docGet_docInsert_self d "node" (.document (nodeBlock ts uid))
  show docGet
      (match docGet (docInsert d "node" (.document (nodeBlock ts uid))) idParameter with
       | some Bson.null =>
         docRemove (docInsert d "node" (.document (nodeBlock ts uid))) idParameter
       | _ => docInsert d "node" (.document (nodeBlock ts uid)))
      "node" = some (.document (nodeBlock ts uid))
  split
  · rw [docGet_docRemove_ne _ _ _ (by decide)]
    exact hself
  · exact hself

/-- Claim C7: every item inserted by `insert_one`, `insert_many`,
`insert_embedded` or `upsert_embedded` carries a freshly built audit block
in which `date_created` equals `date_modified` and `created_by_id` equals
`updated_by_id` — both actor ids equal to the supplied actor id when one is
given and both absent otherwise. -/
theorem claim_C7_audit_at_creation :
    (∀ (ts : Nat) (uid : Option ID),
      docGet (nodeBlock ts uid) "date_created" = docGet (nodeBlock ts uid) "date_modified"
      ∧ docGet (nodeBlock ts uid) "date_created" = some (.i64 ts)
      ∧ docGet (nodeBlock ts uid) "created_by_id" = docGet (nodeBlock ts uid) "updated_by_id"
      ∧ docGet (nodeBlock ts uid) "created_by_id" = uid.map ID.toBson)
    ∧ (∀ (d : Doc) (uid : Option ID) (ts : Nat),
        docGet (insertOneDoc d uid ts) "node" = some (.document (nodeBlock ts uid)))
    ∧ (∀ (uid : Option ID) (ts : Nat) (items : List Ser), ∀ d ∈ stampMany uid ts items,
        docGet d "node" = some (.document (nodeBlock ts uid)))
    ∧ (∀ (uid : Option ID) (ts : Nat) (uuid : Nat → String) (items : List Ser)
        (n : Nat) (r : List ID × List Doc), stampEmbedded uid ts uuid items n = some r →
        ∀ d ∈ r.2, docGet d "node" = some (.document (nodeBlock ts uid)))
    ∧ (∀ (uid : Option ID) (ts : Nat) (uuid : Nat → String) (items : List Ser)
        (n : Nat) (r : List ID × List Doc), stampUpsert uid ts uuid items n = some r →
        ∀ d ∈ r.2, docGet d "node" = some (.document (nodeBlock ts uid))) := by
  refine ⟨?_, fun d uid ts => insertOneDoc_node d uid ts,
    fun uid ts items => stampMany_node uid ts items,
    fun uid ts uuid items n r h => stampEmbedded_node uid ts uuid items n r h,
    fun uid ts uuid items n r h => stampUpsert_node uid ts uuid items n r h⟩
  intro ts uid
  obtain ⟨h1, h2, h3, h4⟩ := nodeBlock_fields ts uid
  exact ⟨h1.trans h2.symm, h1, h3.trans h4.symm, h3⟩

/-- Claim C7 (witness): the audit-block guarantees evaluated on concrete
inserts through each of the four inserting operations' stamping stages. -/
theorem claim_C7_audit_at_creation_witness :
    docGet (nodeBlock 3 (some (ID.string "u"))) "date_created" =
      docGet (nodeBlock 3 (some (ID.string "u"))) "date_modified"
    ∧ docGet (insertOneDoc [("name", Bson.string "a")] (some (ID.string "u")) 3) "node" =
      some (.document (nodeBlock 3 (some (ID.string "u"))))
    ∧ docGet [("qty", Bson.i64 1), ("node", Bson.document (nodeBlock 3 none))] "node" =
      some (.document (nodeBlock 3 none))
    ∧ docGet [("_id", Bson.string "u0"), ("node", Bson.document (nodeBlock 3 none))] "node" =
      some (.document (nodeBlock 3 none))
    ∧ docGet [("_id", Bson.i64 9), ("node", Bson.document (nodeBlock 3 none))] "node" =
      some (.document (nodeBlock 3 none)) :=
  ⟨(claim_C7_audit_at_creation.1 3 (some (ID.string "u"))).1,
   claim_C7_audit_at_creation.2.1 [("name", Bson.string "a")] (some (ID.string "u")) 3,
   claim_C7_audit_at_creation.2.2.1 none 3 [Ser.val (.document [("qty", Bson.i64 1)])]
     _ (List.Mem.head _),
   claim_C7_audit_at_creation.2.2.2.1 none 3 (fun _ => "u0")
     [Ser.val (.document [])] 0 _ rfl _ (List.Mem.head _),
   claim_C7_audit_at_creation.2.2.2.2 none 3 (fun _ => "u0")
     [Ser.val (.document [("_id", Bson.i64 9)])] 0 _ rfl _ (List.Mem.head _)⟩

/-- Claim C3 (amended): backend and serialization failures surface as typed
`ServiceError` results for `find_one`, `insert_one`, `insert_many`,
`update_one`, `update_embedded`, `delete_one_by_id`, `delete_embedded` and
`upsert_embedded` (the latter once its stamping step completes), with two
exceptions forced by the code: `insert_embedded` panics (an `.unwrap()`)
when its parent-existence lookup itself fails at the backend, and the
stamping folds of `insert_many` / `insert_embedded` / `upsert_embedded`
silently skip items whose serialization fails (while `ID::with_bson` on an
exotic id type panics, see C10).  The `success: false` responses of
`delete_one_by_id` / `delete_embedded` remain ordinary results. -/
theorem claim_C3_amended :
    (∀ (b : Backend) (filter : Doc), b.fail = true →
      (find_one b filter).1.isError = true)
    ∧ (∀ (b : Backend) (item : Ser) (uid : Option ID) (ts : Nat), b.fail = true →
      (insert_one b item uid ts).1.isError = true)
    ∧ (∀ (b : Backend) (items : List Ser) (uid : Option ID) (ts : Nat), b.fail = true →
      (insert_many b items uid ts).1.isError = true)
    ∧ (∀ (b : Backend) (id : ID) (item : Ser) (uid : Option ID) (ts : Nat), b.fail = true →
      (update_one b id item uid ts).1.isError = true)
    ∧ (∀ (b : Backend) (id : ID) (fp : String) (eid : ID) (item : Ser) (uid : Option ID)
        (ts : Nat), b.fail = true →
      (update_embedded b id fp eid item uid ts).1.isError = true)
    ∧ (∀ (b : Backend) (id : ID), b.fail = true →
      (delete_one_by_id b id).1.isError = true)
    ∧ (∀ (b : Backend) (id : ID) (fp : String) (eid : ID), b.fail = true →
      (delete_embedded b id fp eid).1.isError = true)
    ∧ (∀ (b : Backend) (id : ID) (fp : String) (items : List Ser) (uid : Option ID)
        (parent : Option Ser) (ts : Nat) (uuid : Nat → String)
        (r : List ID × List Doc), stampUpsert uid ts uuid items 0 = some r →
        b.fail = true →
      (upsert_embedded b id fp items uid parent ts uuid).1.isError = true)
    ∧ (∀ (b : Backend) (uid : Option ID) (ts : Nat) (m : String),
      (insert_one b (.bad m) uid ts).1 = .err (.parseError m))
    ∧ (∀ (b : Backend) (id : ID) (uid : Option ID) (ts : Nat) (m : String),
      (update_one b id (.bad m) uid ts).1 = .err (.parseError m)) := by
  refine ⟨?_, ?_, ?_, ?_, ?_, ?_, ?_, ?_, fun b uid ts m => rfl, fun b id uid ts m => rfl⟩
  · intro b filter h
    simp [find_one, findOneB, h, OpResult.isError]
  · intro b item uid ts h
    cases item with
    | bad m => rfl
    | val v => cases v <;> simp [insert_one, insertOneB, Ser.toBson, h, OpResult.isError]
  · intro b items uid ts h
    simp [insert_many, insertManyB, h, OpResult.isError]
  · intro b id item uid ts h
    cases item with
    | bad m => rfl
    | val v => cases v <;> simp [update_one, updateOneB, Ser.toBson, h, OpResult.isError]
  · intro b id fp eid item uid ts h
    cases item with
    | bad m => rfl
    | val v => cases v <;> simp [update_embedded, updateOneB, Ser.toBson, h, OpResult.isError]
  · intro b id h
    simp [delete_one_by_id, deleteOneB, h, OpResult.isError]
  · intro b id fp eid h
    simp [delete_embedded, updateOneB, h, OpResult.isError]
  · intro b id fp items uid parent ts uuid r hr h
    cases parent with
    | none => simp [upsert_embedded, hr, updateOneB, h, OpResult.isError]
    | some p =>
      cases p with
      | bad m => simp [upsert_embedded, hr, Ser.toBson, h, OpResult.isError]
      | val pv => simp [upsert_embedded, hr, Ser.toBson, updateOneB, h, OpResult.isError]

/-- Claim C3 (amended, witness): each typed-error conjunct evaluated on a
concrete failing backend or failing serialization. -/
theorem claim_C3_amended_witness :
    (find_one ⟨[], true, Bson.null⟩ []).1.isError = true
    ∧ (insert_one ⟨[], true, Bson.null⟩ (.val (.document [])) none 0).1.isError = true
    ∧ (insert_many ⟨[], true, Bson.null⟩ [.val (.document [])] none 0).1.isError = true
    ∧ (update_one ⟨[], true, Bson.null⟩ (ID.string "x") (.val (.document [])) none
        0).1.isError = true
    ∧ (update_embedded ⟨[], true, Bson.null⟩ (ID.string "x") "items" (ID.string "a")
        (.val (.document [])) none 0).1.isError = true
    ∧ (delete_one_by_id ⟨[], true, Bson.null⟩ (ID.string "x")).1.isError = true
    ∧ (delete_embedded ⟨[], true, Bson.null⟩ (ID.string "x") "items"
        (ID.string "a")).1.isError = true
    ∧ (upsert_embedded ⟨[], true, Bson.null⟩ (ID.string "x") "items" [] none none 0
        (fun _ => "u0")).1.isError = true
    ∧ (insert_one ⟨[], false, Bson.null⟩ (.bad "boom") none 0).1 =
        .err (.parseError "boom")
    ∧ (update_one ⟨[], false, Bson.null⟩ (ID.string "x") (.bad "boom") none 0).1 =
        .err (.parseError "boom") :=
  ⟨claim_C3_amended.1 _ _ rfl,
   claim_C3_amended.2.1 _ _ _ _ rfl,
   claim_C3_amended.2.2.1 _ _ _ _ rfl,
   claim_C3_amended.2.2.2.1 _ _ _ _ _ rfl,
   claim_C3_amended.2.2.2.2.1 _ _ _ _ _ _ _ rfl,
   claim_C3_amended.2.2.2.2.2.1 _ _ rfl,
   claim_C3_amended.2.2.2.2.2.2.1 _ _ _ _ rfl,
   claim_C3_amended.2.2.2.2.2.2.2.1 _ _ _ _ _ _ _ _ ([], []) rfl rfl,
   claim_C3_amended.2.2.2.2.2.2.2.2.1 _ _ _ "boom",
   claim_C3_amended.2.2.2.2.2.2.2.2.2 _ _ _ _ "boom"⟩

/- Path-splitting lemmas for the backend's dotted-path parser. -/

theorem splitChars_no_dot : ∀ l : List Char, '.' ∉ l → splitChars l = [l] := by
  intro l
  induction l with
  | nil => intro _; rfl
  | cons c rest ih =>
    intro h
    have hc : ¬ c = '.' := fun hh => h (hh ▸ List.mem_cons_self _ _)
    have hrest : '.' ∉ rest := fun hm => h (List.mem_cons_of_mem _ hm)
    simp only [splitChars, hc, if_false]
    rw [ih hrest]

theorem splitChars_append_dot : ∀ (l1 l2 : List Char), '.' ∉ l1 →
    splitChars (l1 ++ '.' :: l2) = l1 :: splitChars l2 := by
  intro l1
  induction l1 with
  | nil => intro l2 _; simp [splitChars]
  | cons c rest ih =>
    intro l2 h
    have hc : ¬ c = '.' := fun hh => h (hh ▸ List.mem_cons_self _ _)
    have hrest : '.' ∉ rest := fun hm => h (List.mem_cons_of_mem _ hm)
    show splitChars (c :: (rest ++ '.' :: l2)) = (c :: rest) :: splitChars l2
    simp only [splitChars, hc, if_false]
    rw [ih l2 hrest]

theorem string_append_assoc (a b c : String) : (a ++ b) ++ c = a ++ (b ++ c) := by
  cases a with
  | mk la =>
    cases b with
    | mk lb =>
      cases c with
      | mk lc =>
        show String.mk ((la ++ lb) ++ lc) = String.mk (la ++ (lb ++ lc))
        rw [List.append_assoc]

theorem pathSegs_positional (f k : String) (hf : '.' ∉ f.data) :
    pathSegs ((f ++ ".$") ++ "." ++ k) = f :: "$" :: pathSegs k := by
  have hdata : ((f ++ ".$") ++ "." ++ k).data = f.data ++ '.' :: ('$' :: '.' :: k.data) := by
    rw [string_data_append, string_data_append, string_data_append]
    simp
  unfold pathSegs
  rw [hdata, splitChars_append_dot _ _ hf]
  have h2 : splitChars ('$' :: '.' :: k.data) = ['$'] :: splitChars k.data := by
    simp [splitChars]
  rw [h2]
  simp [string_mk_data]

/- List-position helper lemmas for the collection model. -/

theorem updateFirst_middle (p : Doc → Bool) (g : Doc → Doc) :
    ∀ (pre post : List Doc) (x : Doc), (∀ q ∈ pre, p q = false) → p x = true →
      updateFirst p g (pre ++ x :: post) = pre ++ g x :: post := by
  intro pre
  induction pre with
  | nil => intro post x _ hx; simp [updateFirst, hx]
  | cons q pre' ih =>
    intro post x hpre hx
    have hq : p q = false := hpre q (List.mem_cons_self _ _)
    show updateFirst p g (q :: (pre' ++ x :: post)) = q :: (pre' ++ g x :: post)
    simp only [updateFirst, hq, Bool.false_eq_true, if_false]
    rw [ih post x (fun r hr => hpre r (List.mem_cons_of_mem _ hr)) hx]

theorem getElem_append_cons_self :
    ∀ (pre post : List Doc) (x : Doc), (pre ++ x :: post)[pre.length]? = some x := by
  intro pre
  induction pre with
  | nil => intro post x; simp
  | cons q pre' ih => intro post x; simpa using ih post x

theorem getElem_append_cons_ne :
    ∀ (pre post : List Doc) (x y : Doc) (j : Nat), j ≠ pre.length →
      (pre ++ x :: post)[j]? = (pre ++ y :: post)[j]? := by
  intro pre
  induction pre with
  | nil =>
    intro post x y j hj
    cases j with
    | zero => exact absurd rfl hj
    | succ j' => simp
  | cons q pre' ih =>
    intro post x y j hj
    cases j with
    | zero => simp
    | succ j' =>
      have : j' ≠ pre'.length := fun hh => hj (by simp [hh])
      simpa using ih post x y j' this

/-- The array stored at a field, empty when absent or not an array. -/
def arrAt (d : Doc) (f : String) : List Bson :=
  match docGet d f with
  | some (.array xs) => xs
  | _ => []

/-- Frame invariant threaded through the positional `$set` fold of
`update_embedded`: relative to the original parent `p` with array `xs` at
field `f` and positional index `i`, the accumulator differs from `p` at
most in the array at `f`, and that array differs from `xs` at most at
index `i`. -/
def FrameInv (p : Doc) (f : String) (i : Nat) (xs : List Bson) (acc : Doc) : Prop :=
  (∀ k, k ≠ f → docGet acc k = docGet p k) ∧
  ∃ xs', docGet acc f = some (.array xs') ∧ xs'.length = xs.length ∧
    ∀ j, j ≠ i → xs'[j]? = xs[j]?

theorem setPathSegs_frame (pos : String → Option Nat) (p : Doc) (f : String) (i : Nat)
    (xs : List Bson) (hpos : pos f = some i) (acc : Doc) (hinv : FrameInv p f i xs acc)
    (t : List String) (v : Bson) :
    FrameInv p f i xs (setPathSegs pos acc (f :: "$" :: t) v) := by
  obtain ⟨hother, xs', hget, hlen, hfr⟩ := hinv
  cases hei : xs'[i]? with
  | none =>
    simp only [setPathSegs, eq_self_iff_true, if_true, hget, hpos, hei]
    exact ⟨hother, xs', hget, hlen, hfr⟩
  | some e =>
    cases e with
    | document ed =>
      simp only [setPathSegs, eq_self_iff_true, if_true, hget, hpos, hei]
      refine ⟨?_, xs'.set i (.document (setPlainPath ed t v)),
        docGet_docInsert_self _ _ _, ?_, ?_⟩
      · intro k hk
        rw [docGet_docInsert_ne _ _ _ _ hk]
        exact hother k hk
      · rw [List.length_set]; exact hlen
      · intro j hj
        rw [List.getElem?_set_ne (fun hh => hj hh.symm)]
        exact hfr j hj
    | null =>
      simp only [setPathSegs, eq_self_iff_true, if_true, hget, hpos, hei]
      exact ⟨hother, xs', hget, hlen, hfr⟩
    | boolean bb =>
      simp only [setPathSegs, eq_self_iff_true, if_true, hget, hpos, hei]
      exact ⟨hother, xs', hget, hlen, hfr⟩
    | i32 ii =>
      simp only [setPathSegs, eq_self_iff_true, if_true, hget, hpos, hei]
      exact ⟨hother, xs', hget, hlen, hfr⟩
    | i64 ii =>
      simp only [setPathSegs, eq_self_iff_true, if_true, hget, hpos, hei]
      exact ⟨hother, xs', hget, hlen, hfr⟩
    | string ss =>
      simp only [setPathSegs, eq_self_iff_true, if_true, hget, hpos, hei]
      exact ⟨hother, xs', hget, hlen, hfr⟩
    | objectId oo =>
      simp only [setPathSegs, eq_self_iff_true, if_true, hget, hpos, hei]
      exact ⟨hother, xs', hget, hlen, hfr⟩
    | array aa =>
      simp only [setPathSegs, eq_self_iff_true, if_true, hget, hpos, hei]
      exact ⟨hother, xs', hget, hlen, hfr⟩

theorem setFold_frame (pos : String → Option Nat) (p : Doc) (f : String) (i : Nat)
    (xs : List Bson) (hpos : pos f = some i) :
    ∀ (us : List (String × Bson)) (acc : Doc),
      (∀ kv ∈ us, ∃ t, pathSegs kv.1 = f :: "$" :: t) →
      FrameInv p f i xs acc →
      FrameInv p f i xs (us.foldl (fun a kv => setPath pos a kv.1 kv.2) acc) := by
  intro us
  induction us with
  | nil => intro acc _ hinv; exact hinv
  | cons kv rest ih =>
    intro acc hus hinv
    obtain ⟨t, ht⟩ := hus kv (List.mem_cons_self _ _)
    have hstep : FrameInv p f i xs (setPath pos acc kv.1 kv.2) := by
      rw [show setPath pos acc kv.1 kv.2 = setPathSegs pos acc (pathSegs kv.1) kv.2
        from rfl, ht]
      exact setPathSegs_frame pos p f i xs hpos acc hinv t kv.2
    simp only [List.foldl_cons]
    exact ih _ (fun kv2 h2 => hus kv2 (List.mem_cons_of_mem _ h2)) hstep

/-- Keys folded through `docInsert` with a common transformation satisfy
a key predicate when both the seed and the transformed keys do. -/
theorem foldl_docInsert_keys (P : String → Prop) (g : String → String) :
    ∀ (us : List (String × Bson)) (acc : Doc),
      (∀ kv ∈ acc, P kv.1) → (∀ kv ∈ us, P (g kv.1)) →
      ∀ kv ∈ us.foldl (fun a kv => docInsert a (g kv.1) kv.2) acc, P kv.1 := by
  intro us
  induction us with
  | nil => intro acc hacc _ kv hkv; exact hacc kv hkv
  | cons kv0 rest ih =>
    intro acc hacc hus kv hkv
    simp only [List.foldl_cons] at hkv
    refine ih _ ?_ (fun kv2 h2 => hus kv2 (List.mem_cons_of_mem _ h2)) kv hkv
    intro kv2 h2
    rcases mem_docInsert _ _ _ _ h2 with h3 | h4
    · exact hacc kv2 h3
    · rw [h4]; exact hus kv0 (List.mem_cons_self _ _)

/-- Every key of the `$set` payload built by `update_embedded` goes through
the positional `fieldPath.$` path. -/
theorem embeddedUpdateDoc_keys (fieldPath : String) (hf : '.' ∉ fieldPath.data)
    (document : Doc) (userId : Option ID) (ts : Nat) :
    ∀ kv ∈ embeddedUpdateDoc fieldPath document userId ts,
      ∃ t, pathSegs kv.1 = fieldPath :: "$" :: t := by
  have hbase : ∀ kv ∈ document.foldl
      (fun acc kv => docInsert acc ((fieldPath ++ ".$") ++ "." ++ kv.1) kv.2) [],
      ∃ t, pathSegs kv.1 = fieldPath :: "$" :: t := by
    refine foldl_docInsert_keys (fun key => ∃ t, pathSegs key = fieldPath :: "$" :: t)
      (fun k => (fieldPath ++ ".$") ++ "." ++ k) document [] (by simp) ?_
    intro kv2 _
    exact ⟨pathSegs kv2.1, pathSegs_positional fieldPath kv2.1 hf⟩
  have hstamp1 : ∃ t, pathSegs ((fieldPath ++ ".$") ++ ".node.date_modified") =
      fieldPath :: "$" :: t := by
    have heq : (fieldPath ++ ".$") ++ ".node.date_modified" =
        (fieldPath ++ ".$") ++ "." ++ "node.date_modified" := by
      rw [string_append_assoc (fieldPath ++ ".$")]
      rfl
    rw [heq]
    exact ⟨pathSegs "node.date_modified", pathSegs_positional fieldPath _ hf⟩
  have hstamp2 : ∃ t, pathSegs ((fieldPath ++ ".$") ++ ".node.updated_by_id") =
      fieldPath :: "$" :: t := by
    have heq : (fieldPath ++ ".$") ++ ".node.updated_by_id" =
        (fieldPath ++ ".$") ++ "." ++ "node.updated_by_id" := by
      rw [string_append_assoc (fieldPath ++ ".$")]
      rfl
    rw [heq]
    exact ⟨pathSegs "node.updated_by_id", pathSegs_positional fieldPath _ hf⟩
  intro kv hkv
  cases userId with
  | none =>
    rcases mem_docInsert _ _ _ _ hkv with h1 | h2
    · exact hbase kv h1
    · rw [h2]; exact hstamp1
  | some uid =>
    rcases mem_docInsert _ _ _ _ hkv with h1 | h2
    · rcases mem_docInsert _ _ _ _ h1 with h3 | h4
      · exact hbase kv h3
      · rw [h4]; exact hstamp1
    · rw [h2]; exact hstamp2

/-- When the embedded filter matches, `update_embedded` leaves the backend
in the state obtained by updating the first matching document with the
`$set` payload it built. -/
theorem update_embedded_state (b : Backend) (id : ID) (fieldPath : String)
    (embeddedId : ID) (payload : Doc) (userId : Option ID) (ts : Nat)
    (h : b.fail = false)
    (hany : b.docs.any (matchFilter [(idParameter, id.toBson),
      (fieldPath ++ "." ++ idParameter, embeddedId.toBson)]) = true) :
    (update_embedded b id fieldPath embeddedId (.val (.document payload))
        userId ts).2.docs =
      updateFirst
        (matchFilter [(idParameter, id.toBson),
          (fieldPath ++ "." ++ idParameter, embeddedId.toBson)])
        (applyUpdateTo [(idParameter, id.toBson),
          (fieldPath ++ "." ++ idParameter, embeddedId.toBson)]
          [("$set", .document (embeddedUpdateDoc fieldPath payload userId ts))])
        b.docs := by
  unfold update_embedded updateOneB findOneB
  simp only [Ser.toBson, h, hany, Bool.false_eq_true, if_false, if_true]
  split <;> simp_all

/-- Claim C8: for a backend holding `pre ++ p :: post` where `p` is the
parent matched by the `(id, fieldPath._id = embeddedId)` filter,
`update_embedded` modifies only the array element at the positional index
bound to `embeddedId`: every other document of the collection is returned
unchanged, every field of the parent other than `fieldPath` is unchanged,
and every sibling element of the array is unchanged. -/
theorem claim_C8_update_embedded_frame
    (pre post : List Doc) (p : Doc) (gen : Bson) (id embeddedId : ID)
    (userId : Option ID) (fieldPath : String) (payload : Doc) (ts : Nat)
    (xs : List Bson) (i : Nat)
    (hf : '.' ∉ fieldPath.data)
    (hpre : ∀ q ∈ pre, matchFilter [(idParameter, id.toBson),
      (fieldPath ++ "." ++ idParameter, embeddedId.toBson)] q = false)
    (hp : matchFilter [(idParameter, id.toBson),
      (fieldPath ++ "." ++ idParameter, embeddedId.toBson)] p = true)
    (hxs : docGet p fieldPath = some (.array xs))
    (hi : xs.findIdx? (elemCond [(idParameter, id.toBson),
      (fieldPath ++ "." ++ idParameter, embeddedId.toBson)] fieldPath) = some i) :
    (update_embedded ⟨pre ++ p :: post, false, gen⟩ id fieldPath embeddedId
        (.val (.document payload)) userId ts).2.docs.length =
      (pre ++ p :: post).length
    ∧ (∀ j, j ≠ pre.length →
        (update_embedded ⟨pre ++ p :: post, false, gen⟩ id fieldPath embeddedId
          (.val (.document payload)) userId ts).2.docs[j]? = (pre ++ p :: post)[j]?)
    ∧ (∀ q, (update_embedded ⟨pre ++ p :: post, false, gen⟩ id fieldPath embeddedId
          (.val (.document payload)) userId ts).2.docs[pre.length]? = some q →
        (∀ k, k ≠ fieldPath → docGet q k = docGet p k)
        ∧ (arrAt q fieldPath).length = xs.length
        ∧ (∀ j, j ≠ i → (arrAt q fieldPath)[j]? = xs[j]?)) := by
  have hany : (pre ++ p :: post).any (matchFilter [(idParameter, id.toBson),
      (fieldPath ++ "." ++ idParameter, embeddedId.toBson)]) = true := by
    rw [List.any_eq_true]
    exact ⟨p, by simp, hp⟩
  have hdocs := update_embedded_state ⟨pre ++ p :: post, false, gen⟩ id fieldPath
    embeddedId payload userId ts rfl hany
  rw [show (Backend.mk (pre ++ p :: post) false gen).docs = pre ++ p :: post from rfl,
    updateFirst_middle _ _ pre post p hpre hp] at hdocs
  have hpos : posMap [(idParameter, id.toBson),
      (fieldPath ++ "." ++ idParameter, embeddedId.toBson)] p fieldPath = some i := by
    simp only [posMap, hxs, hi]
  have hinv : FrameInv p fieldPath i xs
      (applyUpdateTo [(idParameter, id.toBson),
        (fieldPath ++ "." ++ idParameter, embeddedId.toBson)]
        [("$set", .document (embeddedUpdateDoc fieldPath payload userId ts))] p) := by
    exact setFold_frame _ p fieldPath i xs hpos _ p
      (embeddedUpdateDoc_keys fieldPath hf payload userId ts)
      ⟨fun k _ => rfl, xs, hxs, rfl, fun j _ => rfl⟩
  obtain ⟨hother, xs', hget, hlen, hfr⟩ := hinv
  refine ⟨?_, ?_, ?_⟩
  · rw [hdocs]; simp
  · intro j hj
    rw [hdocs]
    exact getElem_append_cons_ne pre post _ p j hj
  · intro q hq
    rw [hdocs, getElem_append_cons_self] at hq
    injection hq with hq
    subst hq
    have harr : arrAt (applyUpdateTo [(idParameter, id.toBson),
        (fieldPath ++ "." ++ idParameter, embeddedId.toBson)]
        [("$set", .document (embeddedUpdateDoc fieldPath payload userId ts))] p)
        fieldPath = xs' := by
      simp [arrAt, hget]
    exact ⟨hother, by rw [harr]; exact hlen, fun j hj => by rw [harr]; exact hfr j hj⟩

/-- Sample embedded element `a` for exercising the frame property. -/
def c8ElemA : Bson := Bson.document [("_id", Bson.string "a"), ("qty", Bson.i64 1)]

/-- Sample sibling element `b`. -/
def c8ElemB : Bson := Bson.document [("_id", Bson.string "b"), ("qty", Bson.i64 5)]

/-- Sample parent document holding both elements under `items`. -/
def c8Parent : Doc :=
  [("_id", Bson.string "p"), ("items", Bson.array [c8ElemA, c8ElemB])]

/-- The parent after updating element `a` with `{qty: 2}` at time 7. -/
def c8Updated : Doc :=
  [("_id", Bson.string "p"),
   ("items", Bson.array
     [Bson.document [("_id", Bson.string "a"), ("qty", Bson.i64 2),
       ("node", Bson.document [("date_modified", Bson.i64 7)])],
      c8ElemB])]

/-- Claim C8 (witness): updating element `a` of a concrete two-element
array leaves the parent's other fields and the sibling element `b`
byte-identical. -/
theorem claim_C8_update_embedded_frame_witness :
    (update_embedded ⟨[c8Parent], false, Bson.null⟩ (ID.string "p") "items"
        (ID.string "a") (.val (.document [("qty", Bson.i64 2)])) none 7).2.docs.length = 1
    ∧ docGet c8Updated "_id" = some (Bson.string "p")
    ∧ (arrAt c8Updated "items").length = 2
    ∧ (arrAt c8Updated "items")[1]? = some c8ElemB := by
  have hinst := claim_C8_update_embedded_frame [] [] c8Parent Bson.null
    (ID.string "p") (ID.string "a") none "items" [("qty", Bson.i64 2)] 7
    [c8ElemA, c8ElemB] 0 (by decide) (by simp) (by rfl) rfl rfl
  exact ⟨hinst.1, (hinst.2.2 c8Updated rfl).1 "_id" (by decide),
    (hinst.2.2 c8Updated rfl).2.1, (hinst.2.2 c8Updated rfl).2.2 1 (by decide)⟩
